import Mathlib

/-!
# Verification of the Emberon framing protocol (emberon.py)

Shallow embedding of the core byte-level logic of `emberon.py`:
the fixed 256-byte frame header (`calc_header` / `parse_header`),
the SHA-256 integrity digest, filename splitting (`os.path.splitext` /
`os.path.basename` semantics), the pixel-grid packing pipeline
(`encode_file_to_png` / `decode_png_to_file` minus file and PNG I/O,
which the spec treats as external collaborators), and the inspect path.

Bytes are modelled as `Nat` values (< 256 where produced by the code),
byte strings as `List Nat`.  Python strings are modelled as lists of
Unicode code points (`List Nat`); `str.encode("utf-8")` is `utf8Encode`.
Fallible code returns `Except EmbError`.
-/

set_option maxRecDepth 100000

namespace Emberon


/-- Error taxonomy of the spec (section 7), matching the exceptions the
Python source raises: `ValueError` in `calc_header` is `NameTooLong`,
the two `RuntimeError`s of `calc_header`/`parse_header` are
`HeaderOverflow`/`TruncatedImage`, a `UnicodeDecodeError` escaping
`parse_header` is `InvalidEncoding`, the `RuntimeError`s of
`decode_png_to_file` are `BadMagic`, `Truncated`, `IntegrityMismatch`
and `UnsupportedMethod`, and a `struct.error` from out-of-range packed
fields is `PackError`. -/
inductive EmbError where
  | NameTooLong
  | HeaderOverflow
  | TruncatedImage
  | InvalidEncoding
  | BadMagic
  | Truncated
  | IntegrityMismatch
  | UnsupportedMethod
  | PackError
  deriving DecidableEq, Repr

instance {ε α : Type} [DecidableEq ε] [DecidableEq α] :
    DecidableEq (Except ε α) := fun x y =>
  match x, y with
  | .error a, .error b =>
    match decEq a b with
    | isTrue h => isTrue (h ▸ rfl)
    | isFalse h => isFalse fun hc => h (Except.error.inj hc)
  | .ok a, .ok b =>
    match decEq a b with
    | isTrue h => isTrue (h ▸ rfl)
    | isFalse h => isFalse fun hc => h (Except.ok.inj hc)
  | .error _, .ok _ => isFalse fun hc => Except.noConfusion hc
  | .ok _, .error _ => isFalse fun hc => Except.noConfusion hc

/-- Big-endian value of a byte list, as computed by `struct.unpack`. -/
def beToNat (l : List Nat) : Nat := l.foldl (fun a b => a * 256 + b) 0

/-- `k`-byte big-endian encoding of `n % 2^(8*k)`, as laid out by
`struct.pack` for the `Q` (k = 8) and `H` (k = 2) fields. -/
def natToBE : Nat → Nat → List Nat
  | 0, _ => []
  | k + 1, n => natToBE k (n / 256) ++ [n % 256]

/-- Python slice `l[s : s + k]` (clipping at the end like Python). -/
def listSlice (l : List Nat) (s k : Nat) : List Nat := (l.drop s).take k

/-- A Unicode scalar value, i.e. a code point that a Python `str` may
hold and `str.encode("utf-8")` accepts: below `0x110000` and not a
surrogate. -/
def validCp (cp : Nat) : Bool := cp < 1114112 && (cp < 55296 || 57344 ≤ cp)

/-- Standard UTF-8 encoding of one scalar value, as performed by
`str.encode("utf-8")`. -/
def utf8EncodeCp (cp : Nat) : List Nat :=
  if cp < 128 then [cp]
  else if cp < 2048 then [192 + cp / 64, 128 + cp % 64]
  else if cp < 65536 then [224 + cp / 4096, 128 + cp / 64 % 64, 128 + cp % 64]
  else [240 + cp / 262144, 128 + cp / 4096 % 64, 128 + cp / 64 % 64, 128 + cp % 64]

/-- UTF-8 encoding of a code-point string (`str.encode("utf-8")`). -/
def utf8Encode : List Nat → List Nat
  | [] => []
  | c :: r => utf8EncodeCp c ++ utf8Encode r

/-- One-byte-at-a-time UTF-8 acceptor.  `need` is the number of
continuation bytes still expected, `lo`/`hi` the inclusive bounds on the
next byte while `need > 0`.  The lead-byte dispatch encodes exactly the
sequences Python's strict `bytes.decode("utf-8")` accepts (RFC 3629:
lead `C2..DF` + 1 continuation; `E0 A0..BF`, `ED 80..9F` (no
surrogates), other `E1..EF` + `80..BF`, then 1 continuation;
`F0 90..BF`, `F4 80..8F` (≤ `0x10FFFF`), `F1..F3` + `80..BF`, then 2
continuations; continuations are `80..BF`). -/
def utf8ValidAux : Nat → Nat → Nat → List Nat → Bool
  | 0, _, _, [] => true
  | _ + 1, _, _, [] => false
  | 0, _, _, b :: r =>
    if b < 128 then utf8ValidAux 0 0 0 r
    else if b < 194 then false
    else if b < 224 then utf8ValidAux 1 128 191 r
    else if b = 224 then utf8ValidAux 2 160 191 r
    else if b = 237 then utf8ValidAux 2 128 159 r
    else if b < 240 then utf8ValidAux 2 128 191 r
    else if b = 240 then utf8ValidAux 3 144 191 r
    else if b = 244 then utf8ValidAux 3 128 143 r
    else if b < 245 then utf8ValidAux 3 128 191 r
    else false
  | n + 1, lo, hi, b :: r =>
    if lo ≤ b ∧ b ≤ hi then utf8ValidAux n 128 191 r else false

/-- Strict UTF-8 validity of a byte string: exactly the byte strings
that `bytes.decode("utf-8")` accepts without raising
`UnicodeDecodeError`. -/
def utf8Valid (l : List Nat) : Bool := utf8ValidAux 0 0 0 l

/-! ## SHA-256

`emberon.py` calls `hashlib.sha256`, an external library collaborator
(the spec only requires "a cryptographic hash (32-byte output)").
Modelled from the spec: this is the standard SHA-256 function
(FIPS 180-4), implemented over `Nat` with explicit `% 2^32`. -/

/-- Truncation to a 32-bit word. -/
def w32 (n : Nat) : Nat := n % 4294967296

/-- Right rotation of a 32-bit word by `n` bits. -/
def rotr32 (n x : Nat) : Nat := w32 (x / 2 ^ n + x % 2 ^ n * 2 ^ (32 - n))

def bigSig0 (x : Nat) : Nat := rotr32 2 x ^^^ rotr32 13 x ^^^ rotr32 22 x

def bigSig1 (x : Nat) : Nat := rotr32 6 x ^^^ rotr32 11 x ^^^ rotr32 25 x

def smallSig0 (x : Nat) : Nat := rotr32 7 x ^^^ rotr32 18 x ^^^ x / 8

def smallSig1 (x : Nat) : Nat := rotr32 17 x ^^^ rotr32 19 x ^^^ x / 1024

def chFn (e f g : Nat) : Nat := e &&& f ^^^ (e ^^^ 4294967295) &&& g

def majFn (a b c : Nat) : Nat := a &&& b ^^^ a &&& c ^^^ b &&& c

/-- The 64 SHA-256 round constants. -/
def shaK : List Nat :=
  [1116352408, 1899447441, 3049323471, 3921009573,
   961987163, 1508970993, 2453635748, 2870763221,
   3624381080, 310598401, 607225278, 1426881987,
   1925078388, 2162078206, 2614888103, 3248222580,
   3835390401, 4022224774, 264347078, 604807628,
   770255983, 1249150122, 1555081692, 1996064986,
   2554220882, 2821834349, 2952996808, 3210313671,
   3336571891, 3584528711, 113926993, 338241895,
   666307205, 773529912, 1294757372, 1396182291,
   1695183700, 1986661051, 2177026350, 2456956037,
   2730485921, 2820302411, 3259730800, 3345764771,
   3516065817, 3600352804, 4094571909, 275423344,
   430227734, 506948616, 659060556, 883997877,
   958139571, 1322822218, 1537002063, 1747873779,
   1955562222, 2024104815, 2227730452, 2361852424,
   2428436474, 2756734187, 3204031479, 3329325298]

/-- SHA-256 padding: `0x80`, zeros to 56 mod 64, then the bit length
as an 8-byte big-endian integer. -/
def shaPad (msg : List Nat) : List Nat :=
  msg ++ 128 :: List.replicate ((120 - (msg.length + 1) % 64) % 64) 0
    ++ natToBE 8 (8 * msg.length)

/-- Big-endian 32-bit words of a byte string (length a multiple of 4). -/
def bytesToWordsBE : List Nat → List Nat
  | a :: b :: c :: d :: rest =>
    (((a * 256 + b) * 256 + c) * 256 + d) :: bytesToWordsBE rest
  | _ => []

/-- Split a word list into chunks of 16 (message blocks);
the first argument is recursion fuel (use the list length). -/
def chunk16 : Nat → List Nat → List (List Nat)
  | 0, _ => []
  | _ + 1, [] => []
  | fuel + 1, a :: l => (a :: l).take 16 :: chunk16 fuel ((a :: l).drop 16)

/-- Extend 16 message-schedule words to 64. -/
def scheduleExtend (ws : Array Nat) : Array Nat :=
  (List.range 48).foldl
    (fun w _ =>
      w.push (w32 (smallSig1 (w.get! (w.size - 2)) + w.get! (w.size - 7) +
        smallSig0 (w.get! (w.size - 15)) + w.get! (w.size - 16))))
    ws

/-- One SHA-256 compression-function application. -/
def shaCompress (hs : Array Nat) (block : List Nat) : Array Nat :=
  let w := scheduleExtend block.toArray
  let st := (List.range 64).foldl
    (fun st t =>
      let a := st.get! 0
      let b := st.get! 1
      let c := st.get! 2
      let d := st.get! 3
      let e := st.get! 4
      let f := st.get! 5
      let g := st.get! 6
      let h := st.get! 7
      let t1 := w32 (h + bigSig1 e + chFn e f g + shaK.getD t 0 + w.get! t)
      let t2 := w32 (bigSig0 a + majFn a b c)
      #[w32 (t1 + t2), a, b, c, w32 (d + t1), e, f, g])
    hs
  (List.range 8).foldl (fun acc i => acc.push (w32 (hs.get! i + st.get! i))) #[]

/-- SHA-256 digest (32 bytes) of a byte string. -/
def sha256 (msg : List Nat) : List Nat :=
  let blocks := chunk16 (bytesToWordsBE (shaPad msg)).length
    (bytesToWordsBE (shaPad msg))
  let H := blocks.foldl shaCompress
    #[1779033703, 3144134277, 1013904242, 2773480762,
      1359893119, 2600822924, 528734635, 1541459225]
  (H.toList.map (natToBE 4)).flatten

/-- ASCII decimal digits of `n`, i.e. the bytes of Python's
`f-string` rendering of a nonnegative integer. -/
def decimalBytes (n : Nat) : List Nat := (Nat.toDigits 10 n).map Char.toNat

/-! ## Filename splitting

`calc_header` computes
`name = os.path.splitext(os.path.basename(filename))[0]` and
`ext = os.path.splitext(filename)[1].lstrip(".")`.  Filenames are
modelled as lists of Unicode code points; `46` is `.` and `47` is the
POSIX path separator `/`. -/

/-- Index of the last occurrence of `v` in `l` (`str.rfind`),
`none` when absent (Python's `-1`). -/
def rfindLast : List Nat → Nat → Option Nat
  | [], _ => none
  | a :: r, v =>
    match rfindLast r v with
    | some i => some (i + 1)
    | none => if a = v then some 0 else none

/-- `os.path.basename` on POSIX: everything after the last `/`. -/
def basename (p : List Nat) : List Nat :=
  match rfindLast p 47 with
  | none => p
  | some i => p.drop (i + 1)

/-- The index at which `os.path.splitext` splits `p`, `none` if it does
not split: the last `.`, provided it comes after the last `/` and some
character strictly between the last `/` and it is not a `.`
(CPython `genericpath._splitext`). -/
def splitextAt (p : List Nat) : Option Nat :=
  match rfindLast p 46 with
  | none => none
  | some d =>
    match rfindLast p 47 with
    | none =>
      if (List.range d).any (fun k => p.getD k 0 != 46) then some d
      else none
    | some i =>
      if i < d then
        if (List.range (d - (i + 1))).any (fun k => p.getD (i + 1 + k) 0 != 46)
        then some d
        else none
      else none

/-- `os.path.splitext(p)[0]`. -/
def splitextRoot (p : List Nat) : List Nat :=
  match splitextAt p with
  | none => p
  | some d => p.take d

/-- `os.path.splitext(p)[1]` (includes the dot when non-empty). -/
def splitextExt (p : List Nat) : List Nat :=
  match splitextAt p with
  | none => []
  | some d => p.drop d

/-- The stored name:
`os.path.splitext(os.path.basename(filename))[0]` (line 76). -/
def nameOf (filename : List Nat) : List Nat := splitextRoot (basename filename)

/-- The stored extension:
`os.path.splitext(filename)[1].lstrip(".")` (line 77). -/
def extOf (filename : List Nat) : List Nat :=
  (splitextExt filename).dropWhile (fun c => c = 46)

/-- UTF-8 bytes of the stored name. -/
def nameBytesOf (filename : List Nat) : List Nat := utf8Encode (nameOf filename)

/-- UTF-8 bytes of the stored extension. -/
def extBytesOf (filename : List Nat) : List Nat := utf8Encode (extOf filename)

/-! ## Header codec -/

/-- `MAGIC = b"EMBERON3"`. -/
def magicBytes : List Nat := [69, 77, 66, 69, 82, 79, 78, 51]

/-- `HEADER_RESERVED_BYTE = 0`. -/
def HEADER_RESERVED_BYTE : Nat := 0

/-- `HEADER_PREFIX_SIZE = struct.calcsize(">8sBBQQHH") = 30`. -/
def HEADER_PREFIX_SIZE : Nat := 30

/-- `HEADER_PAD_TO = 256`. -/
def HEADER_PAD_TO : Nat := 256

/-- The dictionary `parse_header` returns. -/
structure HeaderFields where
  magic : List Nat
  comp_method : Nat
  reserved : Nat
  orig_size : Nat
  comp_size : Nat
  name : List Nat
  ext : List Nat
  digest : List Nat
  deriving DecidableEq, Repr

/-- The integrity digest (lines 82-85):
`sha256(f"{orig_size}:".encode() + comp_bytes)`. -/
def digestOf (orig_size : Nat) (comp_bytes : List Nat) : List Nat :=
  sha256 (decimalBytes orig_size ++ 58 :: comp_bytes)

/-- `struct.pack(">8sBBQQHH", MAGIC, m, 0, orig, comp, nl, el)`:
the 30-byte big-endian header prefix. -/
def packedHeaderPre (orig_size comp_size name_len ext_len comp_method : Nat) :
    List Nat :=
  magicBytes ++ comp_method :: HEADER_RESERVED_BYTE ::
    (natToBE 8 orig_size ++ natToBE 8 comp_size ++
     natToBE 2 name_len ++ natToBE 2 ext_len)

/-- `prefix + name + ext + digest` before zero padding (line 98). -/
def headerUnpadded (orig_size : Nat) (comp_bytes filename : List Nat)
    (comp_method : Nat) : List Nat :=
  packedHeaderPre orig_size comp_bytes.length (nameBytesOf filename).length
      (extBytesOf filename).length comp_method
    ++ nameBytesOf filename ++ extBytesOf filename
    ++ digestOf orig_size comp_bytes

/-- The 256-byte header that `calc_header` returns on success
(line 101: zero-padded to `HEADER_PAD_TO`). -/
def headerBytes (orig_size : Nat) (comp_bytes filename : List Nat)
    (comp_method : Nat) : List Nat :=
  headerUnpadded orig_size comp_bytes filename comp_method
    ++ List.replicate
      (HEADER_PAD_TO - (headerUnpadded orig_size comp_bytes filename comp_method).length) 0

/-- `calc_header` (lines 75-102).  Failures in source order: the
explicit length check raises `ValueError` (`NameTooLong`); `struct.pack`
raises on a `Q` value ≥ 2^64 or a `B` value ≥ 256 (`PackError`); the
defensive overflow check raises `RuntimeError` (`HeaderOverflow`). -/
def calc_header (orig_size : Nat) (comp_bytes filename : List Nat)
    (comp_method : Nat) : Except EmbError (List Nat) :=
  if 175 < (nameBytesOf filename).length ∨ 20 < (extBytesOf filename).length then
    .error .NameTooLong
  else if ¬(orig_size < 2 ^ 64 ∧ comp_bytes.length < 2 ^ 64 ∧ comp_method < 256) then
    .error .PackError
  else if HEADER_PAD_TO < (headerUnpadded orig_size comp_bytes filename comp_method).length then
    .error .HeaderOverflow
  else
    .ok (headerBytes orig_size comp_bytes filename comp_method)

/-- `parse_header` (lines 104-129).  Reads the fixed big-endian prefix,
then slices name, ext and a 32-byte digest sequentially; slices clip at
the end of the buffer exactly as Python slicing does.  The two UTF-8
decodes raise `UnicodeDecodeError` (`InvalidEncoding`) on invalid
bytes. -/
def parse_header (raw : List Nat) : Except EmbError HeaderFields :=
  if raw.length < HEADER_PAD_TO then .error .TruncatedImage
  else if utf8Valid (listSlice raw 30 (beToNat (listSlice raw 26 2))) = false then
    .error .InvalidEncoding
  else if utf8Valid (listSlice raw (30 + beToNat (listSlice raw 26 2))
      (beToNat (listSlice raw 28 2))) = false then
    .error .InvalidEncoding
  else
    .ok
      { magic := listSlice raw 0 8
        comp_method := raw.getD 8 0
        reserved := raw.getD 9 0
        orig_size := beToNat (listSlice raw 10 8)
        comp_size := beToNat (listSlice raw 18 8)
        name := listSlice raw 30 (beToNat (listSlice raw 26 2))
        ext := listSlice raw (30 + beToNat (listSlice raw 26 2))
          (beToNat (listSlice raw 28 2))
        digest := listSlice raw
          (30 + beToNat (listSlice raw 26 2) + beToNat (listSlice raw 28 2)) 32 }

/-! ## Compression registry and pipeline -/

/-- One entry of the `COMPRESSORS` registry: a pair of pure
compress/decompress transforms (`level` is the first argument of
`compress`).  zlib, LZMA and zstd are external libraries; only the
`COMP_NONE` entry is concrete in the source. -/
structure Compressor where
  compress : Nat → List Nat → List Nat
  decompress : List Nat → List Nat

/-- `COMPRESSORS[COMP_NONE]`: the identity transforms. -/
def noneCompressor : Compressor :=
  { compress := fun _ data => data, decompress := fun data => data }

/-- A registry maps a method code to its compressor when present
(`COMPRESSORS.get` / `in COMPRESSORS`). -/
def Registry : Type := Nat → Option Compressor

/-- A registry holding only `COMP_NONE = 0`, the one entry whose
transforms are concrete in the source. -/
def noneOnlyRegistry : Registry :=
  fun m => if m = 0 then some noneCompressor else none

/-- `choose_dimensions` (lines 142-145) in exact arithmetic:
`w = ceil(sqrt(n))`, `h = ceil(n / w)`.  The source computes these with
IEEE-754 `math.sqrt` / float division; the exact model coincides for
every `n ≤ 2^52` (all practical grids) but not beyond (see C5). -/
def choose_dimensions (num_pixels : Nat) : Nat × Nat :=
  let w := if Nat.sqrt num_pixels * Nat.sqrt num_pixels = num_pixels
    then Nat.sqrt num_pixels else Nat.sqrt num_pixels + 1
  (w, if w = 0 then 0 else (num_pixels + w - 1) / w)

/-- `BYTES_PER_PIXEL = 4`. -/
def BYTES_PER_PIXEL : Nat := 4

/-- `encode_file_to_png` (lines 147-173) minus file/PNG I/O: the raster
collaborator stores the returned byte buffer losslessly, so the grid is
returned as `(grid_bytes, width, height)`.  `payload` is padded with
zero bytes to a multiple of 4 (`(-len) % 4` in Python), then with zero
records to fill `width*height`. -/
def encode_file_to_png (reg : Registry) (comp_method compress_level : Nat)
    (raw_data filename : List Nat) : Except EmbError (List Nat × Nat × Nat) :=
  (reg comp_method).elim (.error .UnsupportedMethod) fun c =>
    match calc_header raw_data.length (c.compress compress_level raw_data)
        filename comp_method with
    | .error e => .error e
    | .ok header =>
      let payload := header ++ c.compress compress_level raw_data
      let padded := payload ++ List.replicate ((4 - payload.length % 4) % 4) 0
      let num_pixels := padded.length / BYTES_PER_PIXEL
      let wh := choose_dimensions num_pixels
      let grid := padded ++
        List.replicate ((wh.1 * wh.2 - num_pixels) * BYTES_PER_PIXEL) 0
      .ok (grid, wh.1, wh.2)

/-- The suggested output filename `decode_png_to_file` derives when no
output path is given (line 200): `f"{name}.{ext}"` if `ext` else
`name`, at the byte level (`46` is `.`). -/
def suggestedName (name ext : List Nat) : List Nat :=
  if ext = [] then name else name ++ 46 :: ext

/-- `decode_png_to_file` (lines 175-210) minus file/PNG I/O: takes the
raw grid bytes read back losslessly from the image and returns the
decompressed bytes plus the suggested filename.  Steps in source order:
parse header, magic check (`BadMagic`), slice `[256, 256+comp_size)`
(`Truncated` if past the end), recompute and compare the digest
(`IntegrityMismatch`), registry lookup (`UnsupportedMethod`),
decompress. -/
def decode_png_to_file (reg : Registry) (raw : List Nat) :
    Except EmbError (List Nat × List Nat) :=
  match parse_header raw with
  | .error e => .error e
  | .ok h =>
    if h.magic ≠ magicBytes then .error .BadMagic
    else if raw.length < HEADER_PAD_TO + h.comp_size then .error .Truncated
    else if digestOf h.orig_size (listSlice raw HEADER_PAD_TO h.comp_size) ≠ h.digest then
      .error .IntegrityMismatch
    else
      (reg h.comp_method).elim (.error .UnsupportedMethod) fun c =>
        .ok (c.decompress (listSlice raw HEADER_PAD_TO h.comp_size),
          suggestedName h.name h.ext)

/-- The inspect command (`main`, lines 264-272): reads the raw grid
bytes, calls `parse_header` and prints the fields.  It performs no
magic, truncation or digest check. -/
def inspect_png (raw : List Nat) : Except EmbError HeaderFields :=
  parse_header raw

/-- The value `encode_file_to_png` returns on its success path, as an
explicit function of the compressor entry. -/
def encodeResult (c : Compressor) (comp_method compress_level : Nat)
    (raw_data filename : List Nat) : List Nat × Nat × Nat :=
  let header := headerBytes raw_data.length
    (c.compress compress_level raw_data) filename comp_method
  let payload := header ++ c.compress compress_level raw_data
  let padded := payload ++ List.replicate ((4 - payload.length % 4) % 4) 0
  let num_pixels := padded.length / BYTES_PER_PIXEL
  let wh := choose_dimensions num_pixels
  (padded ++ List.replicate ((wh.1 * wh.2 - num_pixels) * BYTES_PER_PIXEL) 0,
    wh.1, wh.2)

/-- The zero padding appended after the compressed payload in the
encoded grid. -/
def padTail (c : Compressor) (comp_method compress_level : Nat)
    (raw_data filename : List Nat) : List Nat :=
  let header := headerBytes raw_data.length
    (c.compress compress_level raw_data) filename comp_method
  let payload := header ++ c.compress compress_level raw_data
  let padded := payload ++ List.replicate ((4 - payload.length % 4) % 4) 0
  let num_pixels := padded.length / BYTES_PER_PIXEL
  let wh := choose_dimensions num_pixels
  List.replicate ((4 - payload.length % 4) % 4) 0 ++
    List.replicate ((wh.1 * wh.2 - num_pixels) * BYTES_PER_PIXEL) 0

/-- The C4 amendment, following the spec's words with the one exception
the code forces: the extension is the substring of the base-name after
its last dot, unless every character of the base-name before that dot is
itself a dot (e.g. dotfiles such as `.bashrc`, where the whole base-name
is the stored name and the extension is empty). -/
def specAmendedExt (fn : List Nat) : List Nat :=
  match rfindLast (basename fn) 46 with
  | none => []
  | some d =>
    if ((basename fn).take d).all (fun c => c = 46) then []
    else (basename fn).drop (d + 1)

/-- The C4 amendment for the stored name: the base-name up to its last
dot, or the whole base-name when there is no dot or only leading dots
before the last dot. -/
def specAmendedName (fn : List Nat) : List Nat :=
  match rfindLast (basename fn) 46 with
  | none => basename fn
  | some d =>
    if ((basename fn).take d).all (fun c => c = 46) then basename fn
    else (basename fn).take d

/-- The claim's literal split rule (C4 as frozen): the stored extension
is the substring after the last `.`, excluding the dot, empty if the
filename has no dot.  Kept only to compare against the code's
`splitext`-based rule. -/
def claimExt (fn : List Nat) : List Nat :=
  match rfindLast fn 46 with
  | none => []
  | some d => fn.drop (d + 1)

/-! ## Witness inputs -/

/-- The code points of `"note.txt"`. -/
def fnNote : List Nat := [110, 111, 116, 101, 46, 116, 120, 116]

/-- A filename whose base-name encodes to 175 bytes and extension to
20 bytes: 175 `a`s, a dot, 20 `b`s. -/
def fnLong : List Nat := List.replicate 175 97 ++ 46 :: List.replicate 20 98

/-- The code points of `".bashrc"`. -/
def fnBashrc : List Nat := [46, 98, 97, 115, 104, 114, 99]

/-- A 256-byte all-zero grid: long enough to parse, magic mismatched. -/
def zeros256 : List Nat := List.replicate 256 0

/-- The fields `parse_header` recovers from `zeros256`. -/
def hdrZero : HeaderFields :=
  { magic := List.replicate 8 0, comp_method := 0, reserved := 0,
    orig_size := 0, comp_size := 0, name := [], ext := [],
    digest := List.replicate 32 0 }

/-- A 256-byte grid with correct magic and all other fields zero. -/
def rawMagicOnly : List Nat := magicBytes ++ List.replicate 248 0

/-- The fields `parse_header` recovers from `rawMagicOnly`. -/
def hdrMagicOnly : HeaderFields :=
  { magic := magicBytes, comp_method := 0, reserved := 0,
    orig_size := 0, comp_size := 0, name := [], ext := [],
    digest := List.replicate 32 0 }

/-- A 258-byte grid claiming `comp_size = 5`: only 2 payload bytes
present, so any truncation length in `[256, 261)` cuts the payload. -/
def rawShortPayload : List Nat :=
  magicBytes ++ [0, 0] ++ natToBE 8 0 ++ natToBE 8 5 ++ [0, 0, 0, 0] ++
    List.replicate 226 0 ++ [1, 2]

/-- A 256-byte buffer whose prefix declares `name_len = 400`
(bytes 26..27 are `[1, 144]`), far past the 256-byte header region. -/
def rawBigNameLen : List Nat :=
  List.replicate 26 0 ++ [1, 144] ++ List.replicate 228 0

@[simp] theorem natToBE_length (k n : Nat) : (natToBE k n).length = k := by
  induction k generalizing n with
  | zero => rfl
  | succ k ih => simp [natToBE, ih]

theorem beToNat_append_singleton (l : List Nat) (b : Nat) :
    beToNat (l ++ [b]) = beToNat l * 256 + b := by
  simp [beToNat, List.foldl_append]

theorem beToNat_natToBE (k n : Nat) : beToNat (natToBE k n) = n % 256 ^ k := by
  induction k generalizing n with
  | zero => simp [natToBE, beToNat, Nat.mod_one]
  | succ k ih =>
    rw [natToBE, beToNat_append_singleton, ih]
    rw [Nat.pow_succ, Nat.mul_comm (256 ^ k) 256, Nat.mod_mul]
    ring

theorem beToNat_natToBE_of_lt (k n : Nat) (h : n < 256 ^ k) :
    beToNat (natToBE k n) = n := by
  rw [beToNat_natToBE, Nat.mod_eq_of_lt h]

@[simp] theorem listSlice_length (l : List Nat) (s k : Nat) :
    (listSlice l s k).length = min k (l.length - s) := by
  simp [listSlice]

/-- Slicing entirely inside the left part of an append. -/
theorem listSlice_append_left (a b : List Nat) (s k : Nat)
    (h : s + k ≤ a.length) : listSlice (a ++ b) s k = listSlice a s k := by
  simp only [listSlice, List.drop_append_eq_append_drop]
  rw [List.take_append_eq_append_take]
  have h1 : k - (a.drop s).length = 0 := by
    simp [List.length_drop]; omega
  have h2 : s - a.length = 0 := by omega
  simp [h1, h2]
  exact Or.inl (by omega)

/-- Slicing at an offset that skips exactly the left part of an append. -/
theorem listSlice_append_add (a b : List Nat) (s k : Nat) :
    listSlice (a ++ b) (a.length + s) k = listSlice b s k := by
  simp only [listSlice]
  rw [List.drop_append_eq_append_drop]
  have h1 : a.length + s - a.length = s := by omega
  simp [List.drop_eq_nil_of_le (by omega : a.length ≤ a.length + s), h1]

/-- Extracting the middle component of a three-part append. -/
theorem listSlice_mid (a b c : List Nat) (s k : Nat)
    (hs : s = a.length) (hk : k = b.length) :
    listSlice (a ++ (b ++ c)) s k = b := by
  subst hs hk
  have := listSlice_append_add a (b ++ c) 0 b.length
  simp only [Nat.add_zero] at this
  rw [this]
  simp [listSlice, List.take_left]

/-- Reading one byte in the middle of an append. -/
theorem getD_append_mid (a c : List Nat) (b : Nat) (s : Nat)
    (hs : s = a.length) : (a ++ b :: c).getD s 0 = b := by
  subst hs
  induction a with
  | nil => rfl
  | cons x xs ih => simpa using ih

/-- Slices within the kept region are unchanged by truncation. -/
theorem listSlice_take (l : List Nat) (L s k : Nat) (h : s + k ≤ L) :
    listSlice (l.take L) s k = listSlice l s k := by
  simp only [listSlice]
  rw [List.drop_take]
  rw [List.take_take]
  congr 1
  omega

theorem getD_take (l : List Nat) (L i : Nat) (h : i < L) :
    (l.take L).getD i 0 = l.getD i 0 := by
  simp only [List.getD_eq_getElem?_getD]
  rw [List.getElem?_take_of_lt h]

theorem utf8Encode_cons (c : Nat) (r : List Nat) :
    utf8Encode (c :: r) = utf8EncodeCp c ++ utf8Encode r := rfl

theorem utf8Valid_nil : utf8Valid [] = true := rfl

theorem utf8ValidAux_zero (lo hi : Nat) (l : List Nat) :
    utf8ValidAux 0 lo hi l = utf8ValidAux 0 0 0 l := by
  cases l <;> rfl

theorem utf8ValidAux_cont (n lo hi b : Nat) (r : List Nat)
    (h1 : lo ≤ b) (h2 : b ≤ hi) :
    utf8ValidAux (n + 1) lo hi (b :: r) = utf8ValidAux n 128 191 r := by
  conv_lhs => unfold utf8ValidAux
  rw [if_pos ⟨h1, h2⟩]

theorem utf8Valid_cp_append (cp : Nat) (rest : List Nat)
    (h : validCp cp = true) :
    utf8Valid (utf8EncodeCp cp ++ rest) = utf8Valid rest := by
  simp only [validCp, Bool.and_eq_true, Bool.or_eq_true, decide_eq_true_eq] at h
  unfold utf8Valid
  by_cases h1 : cp < 128
  · rw [utf8EncodeCp, if_pos h1, List.cons_append, List.nil_append]
    conv_lhs => unfold utf8ValidAux
    rw [if_pos h1]
  · by_cases h2 : cp < 2048
    · rw [utf8EncodeCp, if_neg h1, if_pos h2]
      simp only [List.cons_append, List.nil_append]
      conv_lhs => unfold utf8ValidAux
      rw [if_neg (by omega), if_neg (by omega), if_pos (by omega),
        utf8ValidAux_cont _ _ _ _ _ (by omega) (by omega),
            utf8ValidAux_zero _ _ _]
    · by_cases h3 : cp < 65536
      · rw [utf8EncodeCp, if_neg h1, if_neg h2, if_pos h3]
        simp only [List.cons_append, List.nil_append]
        conv_lhs => unfold utf8ValidAux
        rw [if_neg (by omega), if_neg (by omega), if_neg (by omega)]
        by_cases hE0 : 224 + cp / 4096 = 224
        · rw [if_pos hE0,
            utf8ValidAux_cont _ _ _ _ _ (by omega) (by omega),
            utf8ValidAux_cont _ _ _ _ _ (by omega) (by omega),
            utf8ValidAux_zero _ _ _]
        · by_cases hED : 224 + cp / 4096 = 237
          · have hs : cp < 55296 ∨ 57344 ≤ cp := h.2
            rw [if_neg hE0, if_pos hED,
              utf8ValidAux_cont _ _ _ _ _ (by omega) (by omega),
              utf8ValidAux_cont _ _ _ _ _ (by omega) (by omega),
            utf8ValidAux_zero _ _ _]
          · rw [if_neg hE0, if_neg hED, if_pos (by omega),
              utf8ValidAux_cont _ _ _ _ _ (by omega) (by omega),
              utf8ValidAux_cont _ _ _ _ _ (by omega) (by omega),
            utf8ValidAux_zero _ _ _]
      · have h4 : cp < 1114112 := h.1
        rw [utf8EncodeCp, if_neg h1, if_neg h2, if_neg h3]
        simp only [List.cons_append, List.nil_append]
        conv_lhs => unfold utf8ValidAux
        rw [if_neg (by omega), if_neg (by omega), if_neg (by omega),
          if_neg (by omega), if_neg (by omega), if_neg (by omega)]
        by_cases hF0 : 240 + cp / 262144 = 240
        · rw [if_pos hF0,
            utf8ValidAux_cont _ _ _ _ _ (by omega) (by omega),
            utf8ValidAux_cont _ _ _ _ _ (by omega) (by omega),
            utf8ValidAux_cont _ _ _ _ _ (by omega) (by omega),
            utf8ValidAux_zero _ _ _]
        · by_cases hF4 : 240 + cp / 262144 = 244
          · rw [if_neg hF0, if_pos hF4,
              utf8ValidAux_cont _ _ _ _ _ (by omega) (by omega),
              utf8ValidAux_cont _ _ _ _ _ (by omega) (by omega),
              utf8ValidAux_cont _ _ _ _ _ (by omega) (by omega),
            utf8ValidAux_zero _ _ _]
          · rw [if_neg hF0, if_neg hF4, if_pos (by omega),
              utf8ValidAux_cont _ _ _ _ _ (by omega) (by omega),
              utf8ValidAux_cont _ _ _ _ _ (by omega) (by omega),
              utf8ValidAux_cont _ _ _ _ _ (by omega) (by omega),
            utf8ValidAux_zero _ _ _]

theorem utf8Valid_encode (l : List Nat) (h : l.all validCp = true) :
    utf8Valid (utf8Encode l) = true := by
  induction l with
  | nil => rfl
  | cons c r ih =>
    simp only [List.all_cons, Bool.and_eq_true] at h
    rw [utf8Encode_cons, utf8Valid_cp_append c _ h.1, ih h.2]

theorem utf8Encode_length_pos (c : Nat) : 0 < (utf8EncodeCp c).length := by
  unfold utf8EncodeCp
  split_ifs <;> simp

theorem utf8Encode_eq_nil_iff (l : List Nat) : utf8Encode l = [] ↔ l = [] := by
  cases l with
  | nil => simp [utf8Encode]
  | cons c r =>
    simp only [utf8Encode_cons]
    constructor
    · intro hnil
      have h1 := congrArg List.length hnil
      simp only [List.length_append, List.length_nil] at h1
      have h2 := utf8Encode_length_pos c
      omega
    · intro h
      exact absurd h (List.cons_ne_nil c r)

theorem size_foldl_push {α : Type} (f : Array Nat → α → Nat) (l : List α)
    (init : Array Nat) :
    (l.foldl (fun a i => a.push (f a i)) init).size = init.size + l.length := by
  induction l generalizing init with
  | nil => simp
  | cons x xs ih => simp [ih, Array.size_push]; omega

theorem shaCompress_size (hs : Array Nat) (block : List Nat) :
    (shaCompress hs block).size = 8 := by
  have := size_foldl_push
    (fun acc i => w32 (hs.get! i + ((List.range 64).foldl
      (fun st t =>
        let a := st.get! 0
        let b := st.get! 1
        let c := st.get! 2
        let d := st.get! 3
        let e := st.get! 4
        let f := st.get! 5
        let g := st.get! 6
        let h := st.get! 7
        let t1 := w32 (h + bigSig1 e + chFn e f g + shaK.getD t 0 +
          (scheduleExtend block.toArray).get! t)
        let t2 := w32 (bigSig0 a + majFn a b c)
        #[w32 (t1 + t2), a, b, c, w32 (d + t1), e, f, g]) hs).get! i))
    (List.range 8) #[]
  simpa [shaCompress] using this

theorem sha256_length (msg : List Nat) : (sha256 msg).length = 32 := by
  unfold sha256
  have hsize : ∀ (blocks : List (List Nat)) (init : Array Nat),
      init.size = 8 → (blocks.foldl shaCompress init).size = 8 := by
    intro blocks
    induction blocks with
    | nil => intro init h; simpa using h
    | cons x xs ih =>
      intro init h
      simp only [List.foldl_cons]
      exact ih _ (shaCompress_size init x)
  have hlen : ∀ (ws : List Nat),
      ((ws.map (natToBE 4)).flatten).length = 4 * ws.length := by
    intro ws
    induction ws with
    | nil => simp
    | cons x xs ih => simp [ih]; omega
  rw [hlen]
  rw [Array.length_toList]
  rw [hsize _ _ (by rfl)]

/-! ## Supporting lemmas -/

theorem all_take (l : List Nat) (p : Nat → Bool) (n : Nat)
    (h : l.all p = true) : (l.take n).all p = true := by
  rw [List.all_eq_true] at h ⊢
  intro x hx
  exact h x (List.take_subset n l hx)

theorem all_drop (l : List Nat) (p : Nat → Bool) (n : Nat)
    (h : l.all p = true) : (l.drop n).all p = true := by
  rw [List.all_eq_true] at h ⊢
  intro x hx
  exact h x (List.drop_subset n l hx)

theorem all_dropWhile (l : List Nat) (p q : Nat → Bool)
    (h : l.all p = true) : (l.dropWhile q).all p = true := by
  induction l with
  | nil => rfl
  | cons a r ih =>
    rw [List.all_cons, Bool.and_eq_true] at h
    rw [List.dropWhile_cons]
    by_cases hq : q a = true
    · rw [if_pos hq]
      exact ih h.2
    · rw [if_neg hq]
      rw [List.all_cons, Bool.and_eq_true]
      exact h

theorem basename_all (fn : List Nat) (p : Nat → Bool)
    (h : fn.all p = true) : (basename fn).all p = true := by
  unfold basename
  cases rfindLast fn 47 with
  | none => exact h
  | some i => exact all_drop fn p (i + 1) h

theorem nameOf_all (fn : List Nat) (h : fn.all validCp = true) :
    (nameOf fn).all validCp = true := by
  unfold nameOf splitextRoot
  cases splitextAt (basename fn) with
  | none => exact basename_all fn validCp h
  | some d => exact all_take _ validCp d (basename_all fn validCp h)

theorem extOf_all (fn : List Nat) (h : fn.all validCp = true) :
    (extOf fn).all validCp = true := by
  unfold extOf splitextExt
  cases splitextAt fn with
  | none => rfl
  | some d => exact all_dropWhile _ validCp _ (all_drop fn validCp d h)

theorem nameBytesOf_valid (fn : List Nat) (h : fn.all validCp = true) :
    utf8Valid (nameBytesOf fn) = true :=
  utf8Valid_encode _ (nameOf_all fn h)

theorem extBytesOf_valid (fn : List Nat) (h : fn.all validCp = true) :
    utf8Valid (extBytesOf fn) = true :=
  utf8Valid_encode _ (extOf_all fn h)

theorem digestOf_length (orig : Nat) (comp : List Nat) :
    (digestOf orig comp).length = 32 := sha256_length _

@[simp] theorem packedHeaderPre_length (o c n e m : Nat) :
    (packedHeaderPre o c n e m).length = 30 := by
  simp [packedHeaderPre, magicBytes]

theorem headerUnpadded_length (orig : Nat) (comp fn : List Nat) (m : Nat) :
    (headerUnpadded orig comp fn m).length =
      62 + (nameBytesOf fn).length + (extBytesOf fn).length := by
  simp [headerUnpadded, digestOf_length]
  omega

theorem headerBytes_length (orig : Nat) (comp fn : List Nat) (m : Nat)
    (h : 62 + (nameBytesOf fn).length + (extBytesOf fn).length ≤ 256) :
    (headerBytes orig comp fn m).length = 256 := by
  simp [headerBytes, headerUnpadded_length, HEADER_PAD_TO]
  omega

theorem listSlice_append_skip (a b : List Nat) (s k : Nat)
    (h : a.length ≤ s) :
    listSlice (a ++ b) s k = listSlice b (s - a.length) k := by
  have := listSlice_append_add a b (s - a.length) k
  rwa [Nat.add_sub_cancel' h] at this

theorem listSlice_cons_skip (x : Nat) (rest : List Nat) (s k : Nat) :
    listSlice (x :: rest) (s + 1) k = listSlice rest s k := rfl

theorem listSlice_zero_exact (x rest : List Nat) (k : Nat)
    (hk : k = x.length) : listSlice (x ++ rest) 0 k = x := by
  subst hk
  simp [listSlice, List.take_left]

/-- `calc_header` succeeds exactly on in-bound inputs, returning
`headerBytes`. -/
theorem calc_header_ok (orig : Nat) (comp fn : List Nat) (m : Nat)
    (hname : (nameBytesOf fn).length ≤ 175)
    (hext : (extBytesOf fn).length ≤ 20)
    (hsum : 62 + (nameBytesOf fn).length + (extBytesOf fn).length ≤ 256)
    (horig : orig < 2 ^ 64) (hcomp : comp.length < 2 ^ 64) (hm : m < 256) :
    calc_header orig comp fn m = .ok (headerBytes orig comp fn m) := by
  unfold calc_header
  rw [if_neg (by omega), if_neg (by push_neg; exact ⟨horig, hcomp, hm⟩),
    if_neg (by rw [headerUnpadded_length]; simp [HEADER_PAD_TO]; omega)]

/-- Parsing a well-formed header (with anything appended after it)
recovers every stored field. -/
theorem parse_headerBytes_append (orig : Nat) (comp fn : List Nat) (m : Nat)
    (t : List Nat)
    (hfn : fn.all validCp = true)
    (hname : (nameBytesOf fn).length ≤ 175)
    (hext : (extBytesOf fn).length ≤ 20)
    (hsum : 62 + (nameBytesOf fn).length + (extBytesOf fn).length ≤ 256)
    (horig : orig < 2 ^ 64) (hcomp : comp.length < 2 ^ 64) (hm : m < 256) :
    parse_header (headerBytes orig comp fn m ++ t) =
      .ok { magic := magicBytes
            comp_method := m
            reserved := HEADER_RESERVED_BYTE
            orig_size := orig
            comp_size := comp.length
            name := nameBytesOf fn
            ext := extBytesOf fn
            digest := digestOf orig comp } := by
  have h2568 : (256 : Nat) ^ 8 = 2 ^ 64 := by norm_num
  have h2562 : (256 : Nat) ^ 2 = 65536 := by norm_num
  have hlen : (headerBytes orig comp fn m ++ t).length = 256 + t.length := by
    rw [List.length_append, headerBytes_length orig comp fn m hsum]
  have hmagic : listSlice (headerBytes orig comp fn m ++ t) 0 8 = magicBytes := by
    have hsplit : headerBytes orig comp fn m ++ t = [] ++ (magicBytes ++
        ((headerBytes orig comp fn m ++ t).drop 8)) := by
      simp [headerBytes, headerUnpadded, packedHeaderPre, List.append_assoc,
        magicBytes]
    rw [hsplit]
    exact listSlice_mid _ _ _ 0 8 rfl rfl
  have horigf : listSlice (headerBytes orig comp fn m ++ t) 10 8 =
      natToBE 8 orig := by
    have hsplit : headerBytes orig comp fn m ++ t =
        (magicBytes ++ [m, HEADER_RESERVED_BYTE]) ++ (natToBE 8 orig ++
        (natToBE 8 comp.length ++ (natToBE 2 (nameBytesOf fn).length ++
        (natToBE 2 (extBytesOf fn).length ++ (nameBytesOf fn ++
        (extBytesOf fn ++ (digestOf orig comp ++
        (List.replicate (HEADER_PAD_TO -
          (headerUnpadded orig comp fn m).length) 0 ++ t)))))))) := by
      simp [headerBytes, headerUnpadded, packedHeaderPre, List.append_assoc]
    rw [hsplit]
    exact listSlice_mid _ _ _ 10 8 (by simp [magicBytes]) (by simp)
  have hcompf : listSlice (headerBytes orig comp fn m ++ t) 18 8 =
      natToBE 8 comp.length := by
    have hsplit : headerBytes orig comp fn m ++ t =
        (magicBytes ++ [m, HEADER_RESERVED_BYTE] ++ natToBE 8 orig) ++
        (natToBE 8 comp.length ++ (natToBE 2 (nameBytesOf fn).length ++
        (natToBE 2 (extBytesOf fn).length ++ (nameBytesOf fn ++
        (extBytesOf fn ++ (digestOf orig comp ++
        (List.replicate (HEADER_PAD_TO -
          (headerUnpadded orig comp fn m).length) 0 ++ t))))))) := by
      simp [headerBytes, headerUnpadded, packedHeaderPre, List.append_assoc]
    rw [hsplit]
    exact listSlice_mid _ _ _ 18 8 (by simp [magicBytes]) (by simp)
  have hnlf : listSlice (headerBytes orig comp fn m ++ t) 26 2 =
      natToBE 2 (nameBytesOf fn).length := by
    have hsplit : headerBytes orig comp fn m ++ t =
        (magicBytes ++ [m, HEADER_RESERVED_BYTE] ++ natToBE 8 orig ++
        natToBE 8 comp.length) ++
        (natToBE 2 (nameBytesOf fn).length ++
        (natToBE 2 (extBytesOf fn).length ++ (nameBytesOf fn ++
        (extBytesOf fn ++ (digestOf orig comp ++
        (List.replicate (HEADER_PAD_TO -
          (headerUnpadded orig comp fn m).length) 0 ++ t)))))) := by
      simp [headerBytes, headerUnpadded, packedHeaderPre, List.append_assoc]
    rw [hsplit]
    exact listSlice_mid _ _ _ 26 2 (by simp [magicBytes]) (by simp)
  have helf : listSlice (headerBytes orig comp fn m ++ t) 28 2 =
      natToBE 2 (extBytesOf fn).length := by
    have hsplit : headerBytes orig comp fn m ++ t =
        (magicBytes ++ [m, HEADER_RESERVED_BYTE] ++ natToBE 8 orig ++
        natToBE 8 comp.length ++ natToBE 2 (nameBytesOf fn).length) ++
        (natToBE 2 (extBytesOf fn).length ++ (nameBytesOf fn ++
        (extBytesOf fn ++ (digestOf orig comp ++
        (List.replicate (HEADER_PAD_TO -
          (headerUnpadded orig comp fn m).length) 0 ++ t))))) := by
      simp [headerBytes, headerUnpadded, packedHeaderPre, List.append_assoc]
    rw [hsplit]
    exact listSlice_mid _ _ _ 28 2 (by simp [magicBytes]) (by simp)
  have hnlv : beToNat (listSlice (headerBytes orig comp fn m ++ t) 26 2) =
      (nameBytesOf fn).length := by
    rw [hnlf]
    exact beToNat_natToBE_of_lt 2 _ (by rw [h2562]; omega)
  have helv : beToNat (listSlice (headerBytes orig comp fn m ++ t) 28 2) =
      (extBytesOf fn).length := by
    rw [helf]
    exact beToNat_natToBE_of_lt 2 _ (by rw [h2562]; omega)
  have hnamef : listSlice (headerBytes orig comp fn m ++ t) 30
      (nameBytesOf fn).length = nameBytesOf fn := by
    have hsplit : headerBytes orig comp fn m ++ t =
        (magicBytes ++ [m, HEADER_RESERVED_BYTE] ++ natToBE 8 orig ++
        natToBE 8 comp.length ++ natToBE 2 (nameBytesOf fn).length ++
        natToBE 2 (extBytesOf fn).length) ++
        (nameBytesOf fn ++
        (extBytesOf fn ++ (digestOf orig comp ++
        (List.replicate (HEADER_PAD_TO -
          (headerUnpadded orig comp fn m).length) 0 ++ t)))) := by
      simp [headerBytes, headerUnpadded, packedHeaderPre, List.append_assoc]
    rw [hsplit]
    exact listSlice_mid _ _ _ 30 _ (by simp [magicBytes]) rfl
  have hextf : listSlice (headerBytes orig comp fn m ++ t)
      (30 + (nameBytesOf fn).length) (extBytesOf fn).length =
      extBytesOf fn := by
    have hsplit : headerBytes orig comp fn m ++ t =
        (magicBytes ++ [m, HEADER_RESERVED_BYTE] ++ natToBE 8 orig ++
        natToBE 8 comp.length ++ natToBE 2 (nameBytesOf fn).length ++
        natToBE 2 (extBytesOf fn).length ++ nameBytesOf fn) ++
        (extBytesOf fn ++ (digestOf orig comp ++
        (List.replicate (HEADER_PAD_TO -
          (headerUnpadded orig comp fn m).length) 0 ++ t))) := by
      simp [headerBytes, headerUnpadded, packedHeaderPre, List.append_assoc]
    rw [hsplit]
    exact listSlice_mid _ _ _ _ _ (by simp [magicBytes]; omega) rfl
  have hdigf : listSlice (headerBytes orig comp fn m ++ t)
      (30 + (nameBytesOf fn).length + (extBytesOf fn).length) 32 =
      digestOf orig comp := by
    have hsplit : headerBytes orig comp fn m ++ t =
        (magicBytes ++ [m, HEADER_RESERVED_BYTE] ++ natToBE 8 orig ++
        natToBE 8 comp.length ++ natToBE 2 (nameBytesOf fn).length ++
        natToBE 2 (extBytesOf fn).length ++ nameBytesOf fn ++
        extBytesOf fn) ++
        (digestOf orig comp ++
        (List.replicate (HEADER_PAD_TO -
          (headerUnpadded orig comp fn m).length) 0 ++ t)) := by
      simp [headerBytes, headerUnpadded, packedHeaderPre, List.append_assoc]
    rw [hsplit]
    exact listSlice_mid _ _ _ _ 32 (by simp [magicBytes]; omega)
      (digestOf_length orig comp).symm
  have hmeth : (headerBytes orig comp fn m ++ t).getD 8 0 = m := by
    have hsplit : headerBytes orig comp fn m ++ t =
        magicBytes ++ (m :: (HEADER_RESERVED_BYTE ::
        (natToBE 8 orig ++ (natToBE 8 comp.length ++
        (natToBE 2 (nameBytesOf fn).length ++
        (natToBE 2 (extBytesOf fn).length ++ (nameBytesOf fn ++
        (extBytesOf fn ++ (digestOf orig comp ++
        (List.replicate (HEADER_PAD_TO -
          (headerUnpadded orig comp fn m).length) 0 ++ t)))))))))) := by
      simp [headerBytes, headerUnpadded, packedHeaderPre, List.append_assoc]
    rw [hsplit]
    exact getD_append_mid _ _ m 8 (by simp [magicBytes])
  have hres : (headerBytes orig comp fn m ++ t).getD 9 0 =
      HEADER_RESERVED_BYTE := by
    have hsplit : headerBytes orig comp fn m ++ t =
        (magicBytes ++ [m]) ++ (HEADER_RESERVED_BYTE ::
        (natToBE 8 orig ++ (natToBE 8 comp.length ++
        (natToBE 2 (nameBytesOf fn).length ++
        (natToBE 2 (extBytesOf fn).length ++ (nameBytesOf fn ++
        (extBytesOf fn ++ (digestOf orig comp ++
        (List.replicate (HEADER_PAD_TO -
          (headerUnpadded orig comp fn m).length) 0 ++ t))))))))) := by
      simp [headerBytes, headerUnpadded, packedHeaderPre, List.append_assoc]
    rw [hsplit]
    exact getD_append_mid _ _ HEADER_RESERVED_BYTE 9 (by simp [magicBytes])
  unfold parse_header
  rw [if_neg (by rw [hlen]; simp [HEADER_PAD_TO]), hnlv, helv, hnamef, hextf]
  rw [if_neg (by rw [nameBytesOf_valid fn hfn]; simp),
    if_neg (by rw [extBytesOf_valid fn hfn]; simp)]
  rw [hmagic, hmeth, hres, horigf, hcompf, hdigf]
  rw [beToNat_natToBE_of_lt 8 orig (by rw [h2568]; omega),
    beToNat_natToBE_of_lt 8 comp.length (by rw [h2568]; omega)]

/-- Decoding a grid that is a well-formed header followed by its
compressed payload (and any trailing padding) succeeds and returns the
decompressed payload plus the suggested filename. -/
theorem decode_headerBytes (reg : Registry) (c : Compressor) (orig : Nat)
    (comp fn z : List Nat) (m : Nat)
    (hreg : reg m = some c)
    (hfn : fn.all validCp = true)
    (hname : (nameBytesOf fn).length ≤ 175)
    (hext : (extBytesOf fn).length ≤ 20)
    (hsum : 62 + (nameBytesOf fn).length + (extBytesOf fn).length ≤ 256)
    (horig : orig < 2 ^ 64) (hcomp : comp.length < 2 ^ 64) (hm : m < 256) :
    decode_png_to_file reg (headerBytes orig comp fn m ++ (comp ++ z)) =
      .ok (c.decompress comp,
        suggestedName (nameBytesOf fn) (extBytesOf fn)) := by
  have hsl : listSlice (headerBytes orig comp fn m ++ (comp ++ z))
      HEADER_PAD_TO comp.length = comp := by
    have h0 : HEADER_PAD_TO = (headerBytes orig comp fn m).length + 0 := by
      rw [headerBytes_length orig comp fn m hsum]
      decide
    rw [h0, listSlice_append_add]
    exact listSlice_zero_exact comp z _ rfl
  have hlen : (headerBytes orig comp fn m ++ (comp ++ z)).length =
      256 + comp.length + z.length := by
    simp [headerBytes_length orig comp fn m hsum]
    omega
  unfold decode_png_to_file
  rw [parse_headerBytes_append orig comp fn m (comp ++ z) hfn hname hext hsum
    horig hcomp hm]
  simp only [hsl]
  rw [if_neg (by simp), if_neg (by rw [hlen]; simp [HEADER_PAD_TO]),
    if_neg (by simp), hreg, Option.elim_some]

theorem encodeResult_fst (c : Compressor) (m lvl : Nat) (b fn : List Nat) :
    (encodeResult c m lvl b fn).1 =
      headerBytes b.length (c.compress lvl b) fn m ++
        (c.compress lvl b ++ padTail c m lvl b fn) := by
  simp [encodeResult, padTail, List.append_assoc]

/-- `encode_file_to_png` succeeds on in-bound inputs, returning the
grid of `encodeResult`. -/
theorem encode_ok (reg : Registry) (c : Compressor) (m lvl : Nat)
    (b fn : List Nat)
    (hreg : reg m = some c)
    (hname : (nameBytesOf fn).length ≤ 175)
    (hext : (extBytesOf fn).length ≤ 20)
    (hsum : 62 + (nameBytesOf fn).length + (extBytesOf fn).length ≤ 256)
    (horig : b.length < 2 ^ 64) (hcomp : (c.compress lvl b).length < 2 ^ 64)
    (hm : m < 256) :
    encode_file_to_png reg m lvl b fn = .ok (encodeResult c m lvl b fn) := by
  unfold encode_file_to_png
  rw [hreg, Option.elim_some]
  rw [calc_header_ok b.length (c.compress lvl b) fn m hname hext hsum
    horig hcomp hm]
  rfl

/-! ## Index lemmas for `rfindLast` (last-occurrence search) -/

theorem rfindLast_some_lt (l : List Nat) (v i : Nat)
    (h : rfindLast l v = some i) : i < l.length := by
  induction l generalizing i with
  | nil => simp [rfindLast] at h
  | cons a r ih =>
    rw [rfindLast] at h
    cases hr : rfindLast r v with
    | some j =>
      rw [hr] at h
      cases h
      have := ih j hr
      simp
      omega
    | none =>
      rw [hr] at h
      by_cases ha : a = v
      · rw [if_pos ha] at h
        cases h
        simp
      · rw [if_neg ha] at h
        cases h

theorem rfindLast_some_get (l : List Nat) (v i : Nat)
    (h : rfindLast l v = some i) : l.getD i 0 = v := by
  induction l generalizing i with
  | nil => simp [rfindLast] at h
  | cons a r ih =>
    rw [rfindLast] at h
    cases hr : rfindLast r v with
    | some j =>
      rw [hr] at h
      cases h
      exact ih j hr
    | none =>
      rw [hr] at h
      by_cases ha : a = v
      · rw [if_pos ha] at h
        cases h
        exact ha
      · rw [if_neg ha] at h
        cases h

theorem rfindLast_none_get (l : List Nat) (v : Nat)
    (h : rfindLast l v = none) :
    ∀ j, j < l.length → l.getD j 0 ≠ v := by
  induction l with
  | nil => intro j hj; simp at hj
  | cons a r ih =>
    rw [rfindLast] at h
    cases hr : rfindLast r v with
    | some j => rw [hr] at h; cases h
    | none =>
      rw [hr] at h
      by_cases ha : a = v
      · rw [if_pos ha] at h; cases h
      · rw [if_neg ha] at h
        intro j hj
        cases j with
        | zero => simpa using ha
        | succ k =>
          simp only [List.length_cons] at hj
          simpa using ih hr k (by omega)

theorem rfindLast_some_after (l : List Nat) (v i : Nat)
    (h : rfindLast l v = some i) :
    ∀ j, i < j → j < l.length → l.getD j 0 ≠ v := by
  induction l generalizing i with
  | nil => intro j _ hj; simp at hj
  | cons a r ih =>
    rw [rfindLast] at h
    cases hr : rfindLast r v with
    | some k =>
      rw [hr] at h
      cases h
      intro j hj hjl
      cases j with
      | zero => omega
      | succ n =>
        simp only [List.length_cons] at hjl
        simpa using ih k hr n (by omega) (by omega)
    | none =>
      rw [hr] at h
      by_cases ha : a = v
      · rw [if_pos ha] at h
        cases h
        intro j hj hjl
        cases j with
        | zero => omega
        | succ n =>
          simp only [List.length_cons] at hjl
          simpa using rfindLast_none_get r v hr n (by omega)
      · rw [if_neg ha] at h
        cases h

theorem rfindLast_drop_le (l : List Nat) (v i k : Nat)
    (h : rfindLast l v = some i) (hk : k ≤ i) :
    rfindLast (l.drop k) v = some (i - k) := by
  induction k generalizing l i with
  | zero => simpa using h
  | succ n ih =>
    cases l with
    | nil => simp [rfindLast] at h
    | cons a r =>
      rw [rfindLast] at h
      cases hr : rfindLast r v with
      | some j =>
        rw [hr] at h
        cases h
        rw [List.drop_succ_cons]
        have := ih r j hr (by omega)
        rw [this]
        congr 1
        omega
      | none =>
        rw [hr] at h
        by_cases ha : a = v
        · rw [if_pos ha] at h
          cases h
          omega
        · rw [if_neg ha] at h
          cases h

theorem rfindLast_drop_none (l : List Nat) (v k : Nat)
    (h : rfindLast l v = none) : rfindLast (l.drop k) v = none := by
  induction k generalizing l with
  | zero => simpa using h
  | succ n ih =>
    cases l with
    | nil => rfl
    | cons a r =>
      rw [rfindLast] at h
      cases hr : rfindLast r v with
      | some j => rw [hr] at h; cases h
      | none =>
        rw [List.drop_succ_cons]
        exact ih r hr

theorem getD_drop_add (l : List Nat) (n k : Nat) :
    (l.drop n).getD k 0 = l.getD (n + k) 0 := by
  simp only [List.getD_eq_getElem?_getD, List.getElem?_drop]

theorem rfindLast_drop_gt (l : List Nat) (v i k : Nat)
    (h : rfindLast l v = some i) (hk : i < k) :
    rfindLast (l.drop k) v = none := by
  cases h2 : rfindLast (l.drop k) v with
  | none => rfl
  | some j =>
    exfalso
    have hget := rfindLast_some_get _ _ _ h2
    have hlt := rfindLast_some_lt _ _ _ h2
    rw [getD_drop_add] at hget
    rw [List.length_drop] at hlt
    exact rfindLast_some_after l v i h (k + j) (by omega) (by omega) hget

theorem basename_no_sep (fn : List Nat) :
    rfindLast (basename fn) 47 = none := by
  unfold basename
  cases h : rfindLast fn 47 with
  | none => exact h
  | some i => exact rfindLast_drop_gt fn 47 i (i + 1) h (by omega)

/-- The forward scan of `_splitext` finds a non-dot character in
`l[0:d]` exactly when not every character of `l[0:d]` is a dot. -/
theorem scan_iff (l : List Nat) (d : Nat) (hd : d ≤ l.length) :
    ((List.range d).any (fun k => l.getD k 0 != 46) = true) ↔
      ¬((l.take d).all (fun c => c = 46) = true) := by
  rw [List.any_eq_true, List.all_eq_true]
  constructor
  · rintro ⟨k, hk, hne⟩ hall
    rw [List.mem_range] at hk
    have hkl : k < l.length := by omega
    have hkt : k < (l.take d).length := by
      simp
      omega
    have hmem : l[k] ∈ l.take d := by
      have hget := List.getElem_take (L := l) (j := d) (i := k) (h := hkt)
      rw [← hget]
      exact List.getElem_mem hkt
    have h46 := hall _ hmem
    rw [decide_eq_true_eq] at h46
    rw [List.getD_eq_getElem l 0 hkl] at hne
    simp [h46] at hne
  · intro hnall
    by_contra hno
    push_neg at hno
    apply hnall
    intro x hx
    rw [List.mem_iff_getElem] at hx
    obtain ⟨k, hk, hxe⟩ := hx
    have hkd : k < d := by
      simp at hk
      omega
    have hkl : k < l.length := by
      simp at hk
      omega
    have h1 := hno k (List.mem_range.mpr hkd)
    rw [List.getD_eq_getElem l 0 hkl] at h1
    simp at h1
    have hget := List.getElem_take (L := l) (j := d) (i := k) (h := hk)
    rw [hget, h1] at hxe
    rw [← hxe]
    simp

theorem any_congr_mem (l : List Nat) (p q : Nat → Bool)
    (h : ∀ a ∈ l, p a = q a) : l.any p = l.any q := by
  induction l with
  | nil => rfl
  | cons a r ih =>
    simp only [List.any_cons]
    rw [h a (List.mem_cons_self a r), ih (fun x hx => h x (List.mem_cons_of_mem a hx))]

/-- Dropping the leading dots of `fn[d:]` when `d` is the index of the
last dot yields `fn[d+1:]`. -/
theorem dropWhile_last_dot (fn : List Nat) (d : Nat)
    (hd : rfindLast fn 46 = some d) (hdl : d < fn.length) :
    (fn.drop d).dropWhile (fun c => c = 46) = fn.drop (d + 1) := by
  rw [List.drop_eq_getElem_cons hdl]
  have h46 : fn[d] = 46 := by
    have := rfindLast_some_get _ _ _ hd
    rwa [List.getD_eq_getElem _ _ hdl] at this
  rw [List.dropWhile_cons, if_pos (by simp [h46])]
  cases he : fn.drop (d + 1) with
  | nil => simp
  | cons x xs =>
    have hlen : d + 1 < fn.length := by
      have := congrArg List.length he
      simp only [List.length_drop, List.length_cons] at this
      omega
    have hx : fn.getD (d + 1) 0 = x := by
      have h0 := getD_drop_add fn (d + 1) 0
      rw [he] at h0
      simpa using h0.symm
    have hne := rfindLast_some_after fn 46 d hd (d + 1) (by omega) hlen
    rw [List.dropWhile_cons, if_neg (by simp; omega)]

theorem nameOf_eq_amended (fn : List Nat) : nameOf fn = specAmendedName fn := by
  unfold nameOf specAmendedName splitextRoot splitextAt
  rw [basename_no_sep fn]
  cases hd : rfindLast (basename fn) 46 with
  | none => rfl
  | some d =>
    simp only []
    have hdl : d < (basename fn).length := rfindLast_some_lt _ _ _ hd
    by_cases hsc :
        (List.range d).any (fun k => (basename fn).getD k 0 != 46) = true
    · rw [if_pos hsc, if_neg ((scan_iff _ d (by omega)).mp hsc)]
    · rw [if_neg hsc, if_pos (by
        by_contra hna
        exact hsc ((scan_iff _ d (by omega)).mpr hna))]

theorem extOf_eq_amended (fn : List Nat) : extOf fn = specAmendedExt fn := by
  unfold extOf specAmendedExt splitextExt splitextAt
  cases hsep : rfindLast fn 47 with
  | none =>
    have hbase : basename fn = fn := by
      unfold basename
      rw [hsep]
    rw [hbase]
    cases hd : rfindLast fn 46 with
    | none => rfl
    | some d =>
      simp only []
      have hdl : d < fn.length := rfindLast_some_lt _ _ _ hd
      by_cases hsc : (List.range d).any (fun k => fn.getD k 0 != 46) = true
      · rw [if_pos hsc, if_neg ((scan_iff _ d (by omega)).mp hsc)]
        exact dropWhile_last_dot fn d hd hdl
      · rw [if_neg hsc, if_pos (by
          by_contra hna
          exact hsc ((scan_iff _ d (by omega)).mpr hna))]
        rfl
  | some i =>
    have hbase : basename fn = fn.drop (i + 1) := by
      unfold basename
      rw [hsep]
    rw [hbase]
    cases hd : rfindLast fn 46 with
    | none =>
      rw [rfindLast_drop_none fn 46 (i + 1) hd]
      rfl
    | some d =>
      by_cases hid : i < d
      · have hd' : rfindLast (fn.drop (i + 1)) 46 = some (d - (i + 1)) :=
          rfindLast_drop_le fn 46 d (i + 1) hd (by omega)
        rw [hd']
        simp only []
        have hdl : d < fn.length := rfindLast_some_lt _ _ _ hd
        have hdl' : d - (i + 1) ≤ (fn.drop (i + 1)).length := by
          simp
          omega
        have hscan_eq :
            ((List.range (d - (i + 1))).any
              (fun k => fn.getD (i + 1 + k) 0 != 46)) =
            ((List.range (d - (i + 1))).any
              (fun k => (fn.drop (i + 1)).getD k 0 != 46)) := by
          apply any_congr_mem
          intro k _
          rw [getD_drop_add]
        by_cases hsc : (List.range (d - (i + 1))).any
            (fun k => fn.getD (i + 1 + k) 0 != 46) = true
        · rw [if_pos hid, if_pos hsc,
            if_neg ((scan_iff _ _ hdl').mp (by rw [← hscan_eq]; exact hsc))]
          rw [List.drop_drop]
          have harith : i + 1 + (d - (i + 1) + 1) = d + 1 := by omega
          rw [harith]
          exact dropWhile_last_dot fn d hd hdl
        · rw [if_pos hid, if_neg hsc, if_pos (by
            by_contra hna
            exact hsc (by
              rw [hscan_eq]
              exact (scan_iff _ _ hdl').mpr hna))]
          rfl
      · rw [rfindLast_drop_gt fn 46 d (i + 1) hd (by omega)]
        simp only []
        rw [if_neg hid]
        rfl

/-! ## Parse and decode characterizations -/

/-- `parse_header` raises `TruncatedImage` exactly on buffers shorter
than 256 bytes. -/
theorem parse_header_truncated_iff (raw : List Nat) :
    parse_header raw = .error .TruncatedImage ↔ raw.length < 256 := by
  unfold parse_header
  split_ifs with h1 h2 h3 <;> simp [HEADER_PAD_TO] at h1 <;> simp <;> omega

/-- `parse_header` succeeds on any buffer of at least 256 bytes whose
name and ext slices are valid UTF-8, returning exactly the slices the
source computes — with no check that they stay inside the 256-byte
header region. -/
theorem parse_header_ok_general (raw : List Nat)
    (hlen : 256 ≤ raw.length)
    (hname : utf8Valid (listSlice raw 30 (beToNat (listSlice raw 26 2))) = true)
    (hext : utf8Valid (listSlice raw (30 + beToNat (listSlice raw 26 2))
      (beToNat (listSlice raw 28 2))) = true) :
    parse_header raw = .ok
      { magic := listSlice raw 0 8
        comp_method := raw.getD 8 0
        reserved := raw.getD 9 0
        orig_size := beToNat (listSlice raw 10 8)
        comp_size := beToNat (listSlice raw 18 8)
        name := listSlice raw 30 (beToNat (listSlice raw 26 2))
        ext := listSlice raw (30 + beToNat (listSlice raw 26 2))
          (beToNat (listSlice raw 28 2))
        digest := listSlice raw
          (30 + beToNat (listSlice raw 26 2) + beToNat (listSlice raw 28 2))
          32 } := by
  unfold parse_header
  rw [if_neg (by simp [HEADER_PAD_TO]; omega), if_neg (by simp [hname]),
    if_neg (by simp [hext])]

/-- Truncating a buffer to `L ≥ 256` bytes does not change its parse
when the header fields fit inside the 256-byte region. -/
theorem parse_header_take (raw : List Nat) (L : Nat) (hL : 256 ≤ L)
    (hLr : L ≤ raw.length)
    (hfit : 30 + beToNat (listSlice raw 26 2) + beToNat (listSlice raw 28 2) +
      32 ≤ 256) :
    parse_header (raw.take L) = parse_header raw := by
  have hlen : (raw.take L).length = L := by
    simp
    omega
  have h26 : listSlice (raw.take L) 26 2 = listSlice raw 26 2 :=
    listSlice_take raw L 26 2 (by omega)
  have h28 : listSlice (raw.take L) 28 2 = listSlice raw 28 2 :=
    listSlice_take raw L 28 2 (by omega)
  have h08 : listSlice (raw.take L) 0 8 = listSlice raw 0 8 :=
    listSlice_take raw L 0 8 (by omega)
  have h10 : listSlice (raw.take L) 10 8 = listSlice raw 10 8 :=
    listSlice_take raw L 10 8 (by omega)
  have h18 : listSlice (raw.take L) 18 8 = listSlice raw 18 8 :=
    listSlice_take raw L 18 8 (by omega)
  have hnm : listSlice (raw.take L) 30 (beToNat (listSlice raw 26 2)) =
      listSlice raw 30 (beToNat (listSlice raw 26 2)) :=
    listSlice_take raw L 30 _ (by omega)
  have hex : listSlice (raw.take L) (30 + beToNat (listSlice raw 26 2))
      (beToNat (listSlice raw 28 2)) =
      listSlice raw (30 + beToNat (listSlice raw 26 2))
        (beToNat (listSlice raw 28 2)) :=
    listSlice_take raw L _ _ (by omega)
  have hdg : listSlice (raw.take L)
      (30 + beToNat (listSlice raw 26 2) + beToNat (listSlice raw 28 2)) 32 =
      listSlice raw
        (30 + beToNat (listSlice raw 26 2) + beToNat (listSlice raw 28 2)) 32 :=
    listSlice_take raw L _ 32 (by omega)
  have hg8 : (raw.take L).getD 8 0 = raw.getD 8 0 := getD_take raw L 8 (by omega)
  have hg9 : (raw.take L).getD 9 0 = raw.getD 9 0 := getD_take raw L 9 (by omega)
  have hc1 : ¬(L < HEADER_PAD_TO) := by
    simp only [HEADER_PAD_TO]
    omega
  have hc2 : ¬(raw.length < HEADER_PAD_TO) := by
    simp only [HEADER_PAD_TO]
    omega
  unfold parse_header
  rw [hlen, h26, h28, h08, h10, h18, hnm, hex, hdg, hg8, hg9]
  rw [if_neg hc1, if_neg hc2]

/-- Decode fails `BadMagic` whenever the header parses but the stored
magic differs from the constant. -/
theorem decode_badmagic (reg : Registry) (raw : List Nat) (h : HeaderFields)
    (hp : parse_header raw = .ok h) (hmg : h.magic ≠ magicBytes) :
    decode_png_to_file reg raw = .error .BadMagic := by
  unfold decode_png_to_file
  rw [hp]
  simp only []
  rw [if_pos hmg]

/-- Decode fails `TruncatedImage` on buffers shorter than 256 bytes. -/
theorem decode_short (reg : Registry) (raw : List Nat)
    (h : raw.length < 256) :
    decode_png_to_file reg raw = .error .TruncatedImage := by
  unfold decode_png_to_file
  rw [(parse_header_truncated_iff raw).mpr h]

/-- Decode of a truncation of `raw` to length `L` fails `Truncated` when
the truncation keeps the whole header but cuts into the claimed
compressed payload. -/
theorem decode_truncated_take (reg : Registry) (raw : List Nat) (L : Nat)
    (hL : 256 ≤ L) (hLr : L ≤ raw.length)
    (hmagic : listSlice raw 0 8 = magicBytes)
    (hnv : utf8Valid (listSlice raw 30 (beToNat (listSlice raw 26 2))) = true)
    (hev : utf8Valid (listSlice raw (30 + beToNat (listSlice raw 26 2))
      (beToNat (listSlice raw 28 2))) = true)
    (hfit : 30 + beToNat (listSlice raw 26 2) + beToNat (listSlice raw 28 2) +
      32 ≤ 256)
    (hcs : L < 256 + beToNat (listSlice raw 18 8)) :
    decode_png_to_file reg (raw.take L) = .error .Truncated := by
  unfold decode_png_to_file
  rw [parse_header_take raw L hL hLr hfit,
    parse_header_ok_general raw (by omega) hnv hev]
  simp only []
  rw [if_neg (by simp [hmagic]), if_pos (by
    simp only [HEADER_PAD_TO]
    have : (raw.take L).length = L := by simp; omega
    omega)]

/-- After a successful parse with matching magic and an in-range
compressed region, decode fails `IntegrityMismatch` exactly when the
recomputed digest differs from the stored one. -/
theorem decode_integrity_iff (reg : Registry) (raw : List Nat)
    (h : HeaderFields) (hp : parse_header raw = .ok h)
    (hmg : h.magic = magicBytes)
    (hsz : HEADER_PAD_TO + h.comp_size ≤ raw.length) :
    (decode_png_to_file reg raw = .error .IntegrityMismatch ↔
      digestOf h.orig_size (listSlice raw HEADER_PAD_TO h.comp_size) ≠
        h.digest) := by
  unfold decode_png_to_file
  rw [hp]
  simp only []
  rw [if_neg (by simp [hmg]), if_neg (by omega)]
  by_cases hd : digestOf h.orig_size (listSlice raw HEADER_PAD_TO h.comp_size) ≠
      h.digest
  · rw [if_pos hd]
    simp [hd]
  · rw [if_neg hd]
    simp only [hd, iff_false]
    cases hr : reg h.comp_method with
    | none => simp [hr]
    | some c => simp [hr]

/-- The 32 bytes at offset `30 + name_len + ext_len` of a built header
are exactly the integrity digest. -/
theorem headerBytes_digest_slice (orig : Nat) (comp fn : List Nat) (m : Nat) :
    listSlice (headerBytes orig comp fn m)
      (30 + (nameBytesOf fn).length + (extBytesOf fn).length) 32 =
      digestOf orig comp := by
  have hsplit : headerBytes orig comp fn m =
      (magicBytes ++ [m, HEADER_RESERVED_BYTE] ++ natToBE 8 orig ++
      natToBE 8 comp.length ++ natToBE 2 (nameBytesOf fn).length ++
      natToBE 2 (extBytesOf fn).length ++ nameBytesOf fn ++
      extBytesOf fn) ++
      (digestOf orig comp ++
      List.replicate (HEADER_PAD_TO -
        (headerUnpadded orig comp fn m).length) 0) := by
    simp [headerBytes, headerUnpadded, packedHeaderPre, List.append_assoc]
  rw [hsplit]
  exact listSlice_mid _ _ _ _ 32 (by simp [magicBytes]; omega)
    (digestOf_length orig comp).symm

/-! ## Claims -/

/-- C1: for every byte buffer `b` (including the empty buffer), every
filename (within the header bounds under which encoding succeeds), and
every compression method `m` present in the registry (whose
decompress inverts its compress, as for the real zlib/LZMA/zstd/none
entries), decoding the grid bytes produced by encoding `b` returns
exactly `b`, and the suggested output filename is the base-name +
extension split of the original filename. -/
theorem C1_roundtrip (reg : Registry) (c : Compressor) (m lvl : Nat)
    (b fn : List Nat)
    (hreg : reg m = some c)
    (hrt : c.decompress (c.compress lvl b) = b)
    (hfn : fn.all validCp = true)
    (hname : (nameBytesOf fn).length ≤ 175)
    (hext : (extBytesOf fn).length ≤ 20)
    (hsum : 62 + (nameBytesOf fn).length + (extBytesOf fn).length ≤ 256)
    (horig : b.length < 2 ^ 64)
    (hcomp : (c.compress lvl b).length < 2 ^ 64)
    (hm : m < 256) :
    ∃ w h, encode_file_to_png reg m lvl b fn =
        .ok ((encodeResult c m lvl b fn).1, w, h) ∧
      decode_png_to_file reg (encodeResult c m lvl b fn).1 =
        .ok (b, suggestedName (nameBytesOf fn) (extBytesOf fn)) := by
  refine ⟨(encodeResult c m lvl b fn).2.1, (encodeResult c m lvl b fn).2.2,
    ?_, ?_⟩
  · rw [encode_ok reg c m lvl b fn hreg hname hext hsum horig hcomp hm]
  · rw [encodeResult_fst]
    rw [decode_headerBytes reg c b.length (c.compress lvl b) fn
      (padTail c m lvl b fn) m hreg hfn hname hext hsum horig hcomp hm]
    rw [hrt]

theorem C1_roundtrip_witness :
    ∃ w h, encode_file_to_png noneOnlyRegistry 0 6 [104, 105] fnNote =
        .ok ((encodeResult noneCompressor 0 6 [104, 105] fnNote).1, w, h) ∧
      decode_png_to_file noneOnlyRegistry
          (encodeResult noneCompressor 0 6 [104, 105] fnNote).1 =
        .ok ([104, 105], suggestedName (nameBytesOf fnNote) (extBytesOf fnNote)) :=
  C1_roundtrip noneOnlyRegistry noneCompressor 0 6 [104, 105] fnNote rfl rfl
    (by decide) (by decide) (by decide) (by decide) (by decide) (by decide)
    (by decide)

/-- C2 counterexample: the filename `"a"*175 + "." + "b"*20` is inside
the claimed bound (base-name 175 bytes, extension 20 bytes), yet
`calc_header` raises `HeaderOverflow` instead of succeeding, because
30 + 175 + 20 + 32 = 257 > 256. -/
theorem C2_counterexample :
    (nameBytesOf fnLong).length = 175 ∧ (extBytesOf fnLong).length = 20 ∧
      calc_header 0 [] fnLong 0 = .error .HeaderOverflow := by
  refine ⟨by decide, by decide, ?_⟩
  unfold calc_header
  rw [if_neg (by decide), if_neg (by decide),
    if_pos (by rw [headerUnpadded_length]; decide)]

/-- C2 (amended): `calc_header` fails `NameTooLong` exactly when the
encoded base-name exceeds 175 bytes or the encoded extension exceeds
20 bytes; within that bound it succeeds with exactly 256 bytes provided
`name_len + ext_len ≤ 194`; in the one remaining in-bound case
(`name_len = 175` and `ext_len = 20`, total 195) the defensive
`HeaderOverflow` branch does trigger. -/
theorem C2_amended :
    (∀ orig comp fn m, calc_header orig comp fn m = .error .NameTooLong ↔
      (175 < (nameBytesOf fn).length ∨ 20 < (extBytesOf fn).length))
    ∧ (∀ orig comp fn m, (nameBytesOf fn).length ≤ 175 →
        (extBytesOf fn).length ≤ 20 →
        (nameBytesOf fn).length + (extBytesOf fn).length ≤ 194 →
        orig < 2 ^ 64 → comp.length < 2 ^ 64 → m < 256 →
        calc_header orig comp fn m = .ok (headerBytes orig comp fn m) ∧
          (headerBytes orig comp fn m).length = 256)
    ∧ (∀ orig comp fn m, (nameBytesOf fn).length = 175 →
        (extBytesOf fn).length = 20 →
        orig < 2 ^ 64 → comp.length < 2 ^ 64 → m < 256 →
        calc_header orig comp fn m = .error .HeaderOverflow) := by
  refine ⟨?_, ?_, ?_⟩
  · intro orig comp fn m
    unfold calc_header
    split_ifs with h1 h2 h3 <;> simp [h1]
  · intro orig comp fn m h1 h2 h3 h4 h5 h6
    exact ⟨calc_header_ok orig comp fn m h1 h2 (by omega) h4 h5 h6,
      headerBytes_length orig comp fn m (by omega)⟩
  · intro orig comp fn m h1 h2 h3 h4 h5
    unfold calc_header
    rw [if_neg (by omega), if_neg (by push_neg; exact ⟨h3, h4, h5⟩),
      if_pos (by rw [headerUnpadded_length]; simp [HEADER_PAD_TO]; omega)]

theorem C2_amended_witness :
    (calc_header 0 [] fnNote 0 = .ok (headerBytes 0 [] fnNote 0) ∧
      (headerBytes 0 [] fnNote 0).length = 256) ∧
    calc_header 1 [7] fnLong 2 = .error .HeaderOverflow :=
  ⟨C2_amended.2.1 0 [] fnNote 0 (by decide) (by decide) (by decide)
      (by decide) (by decide) (by decide),
    C2_amended.2.2 1 [7] fnLong 2 (by decide) (by decide) (by decide)
      (by decide) (by decide)⟩

/-- C3 counterexample: the all-zero 256-byte grid has a first-8-byte
field different from the magic constant, yet Inspect does not fail
`BadMagic` — it parses and returns the fields, because the inspect path
performs no magic check at all. -/
theorem C3_counterexample :
    listSlice zeros256 0 8 ≠ magicBytes ∧
      inspect_png zeros256 = .ok hdrZero := by
  constructor
  · decide
  · decide

/-- C3 (amended): Decode fails `BadMagic` on every grid whose header
parses and whose magic field differs from the constant; on input
shorter than 256 bytes both Decode and Inspect fail `TruncatedImage`;
but Inspect is exactly `parse_header` — step 1 only, without the magic
check of step 2 — so it never fails `BadMagic`. -/
theorem C3_amended :
    (∀ (reg : Registry) (raw : List Nat) (h : HeaderFields),
      parse_header raw = .ok h → h.magic ≠ magicBytes →
      decode_png_to_file reg raw = .error .BadMagic)
    ∧ (∀ (reg : Registry) (raw : List Nat), raw.length < 256 →
        inspect_png raw = .error .TruncatedImage ∧
        decode_png_to_file reg raw = .error .TruncatedImage)
    ∧ (∀ raw, inspect_png raw = parse_header raw) := by
  refine ⟨fun reg raw h hp hmg => decode_badmagic reg raw h hp hmg,
    fun reg raw hlen => ⟨?_, decode_short reg raw hlen⟩, fun raw => rfl⟩
  exact (parse_header_truncated_iff raw).mpr hlen

theorem C3_amended_witness :
    decode_png_to_file noneOnlyRegistry zeros256 = .error .BadMagic ∧
      (inspect_png [0, 1, 2] = .error .TruncatedImage ∧
        decode_png_to_file noneOnlyRegistry [0, 1, 2] =
          .error .TruncatedImage) :=
  ⟨C3_amended.1 noneOnlyRegistry zeros256 hdrZero (by decide) (by decide),
    C3_amended.2.1 noneOnlyRegistry [0, 1, 2] (by decide)⟩

/-- C4 counterexample: for the filename `".bashrc"` the claim's rule
(extension = substring after the last dot) gives extension `"bashrc"`
and an empty name, but the code (`os.path.splitext` semantics) stores
the whole `".bashrc"` as the name with an empty extension. -/
theorem C4_counterexample :
    nameOf fnBashrc = fnBashrc ∧ extOf fnBashrc = [] ∧
      claimExt fnBashrc = [98, 97, 115, 104, 114, 99] ∧
      extOf fnBashrc ≠ claimExt fnBashrc := by
  refine ⟨by decide, by decide, by decide, by decide⟩

/-- C4 (amended): the stored extension is the substring of the
base-name after its last dot (excluding the dot, empty if there is no
dot), except when every character of the base-name before that last dot
is itself a dot (e.g. dotfiles like `".bashrc"`), in which case the
extension is empty and the stored name is the whole base-name;
otherwise the stored name is the base-name up to the last dot.  On
decode the suggested filename is `"{name}.{ext}"` when the stored
extension is non-empty and `"{name}"` otherwise. -/
theorem C4_amended :
    (∀ fn, nameOf fn = specAmendedName fn ∧ extOf fn = specAmendedExt fn)
    ∧ (∀ (reg : Registry) (raw b s : List Nat),
        decode_png_to_file reg raw = .ok (b, s) →
        ∃ h, parse_header raw = .ok h ∧
          s = (if h.ext = [] then h.name else h.name ++ 46 :: h.ext)) := by
  constructor
  · intro fn
    exact ⟨nameOf_eq_amended fn, extOf_eq_amended fn⟩
  · intro reg raw b s hdec
    unfold decode_png_to_file at hdec
    cases hp : parse_header raw with
    | error e =>
      rw [hp] at hdec
      exact Except.noConfusion hdec
    | ok h =>
      rw [hp] at hdec
      simp only [] at hdec
      refine ⟨h, rfl, ?_⟩
      split_ifs at hdec with h1 h2 h3
      cases hr : reg h.comp_method with
      | none =>
        rw [hr, Option.elim_none] at hdec
        exact Except.noConfusion hdec
      | some c =>
        rw [hr, Option.elim_some] at hdec
        simp only [Except.ok.injEq, Prod.mk.injEq] at hdec
        rw [← hdec.2]
        rfl

theorem C4_amended_witness :
    (nameOf fnBashrc = specAmendedName fnBashrc ∧
      extOf fnBashrc = specAmendedExt fnBashrc) ∧
    ∃ h, parse_header (headerBytes 0 [] [] 0) = .ok h ∧
      ([] : List Nat) = (if h.ext = [] then h.name else h.name ++ 46 :: h.ext) :=
  ⟨C4_amended.1 fnBashrc,
    C4_amended.2 noneOnlyRegistry (headerBytes 0 [] [] 0) [] []
      (by
        have h0 := decode_headerBytes noneOnlyRegistry noneCompressor 0 [] []
          [] 0 rfl rfl (by decide) (by decide) (by decide) (by decide)
          (by decide) (by decide)
        simpa using h0)⟩

/-- C6: the integrity digest stored in the header is the 32-byte
SHA-256 of the ASCII decimal of the original size, a `:` separator and
the compressed payload; and (after a successful parse with matching
magic and in-range compressed region) Decode fails `IntegrityMismatch`
if and only if the digest recomputed from the header's `orig_size` and
the sliced compressed region differs from the stored digest. -/
theorem C6_digest :
    (∀ orig comp fn m, (nameBytesOf fn).length ≤ 175 →
      (extBytesOf fn).length ≤ 20 →
      62 + (nameBytesOf fn).length + (extBytesOf fn).length ≤ 256 →
      orig < 2 ^ 64 → comp.length < 2 ^ 64 → m < 256 →
      calc_header orig comp fn m = .ok (headerBytes orig comp fn m) ∧
        listSlice (headerBytes orig comp fn m)
          (30 + (nameBytesOf fn).length + (extBytesOf fn).length) 32 =
          sha256 (decimalBytes orig ++ 58 :: comp) ∧
        (sha256 (decimalBytes orig ++ 58 :: comp)).length = 32)
    ∧ (∀ (reg : Registry) (raw : List Nat) (h : HeaderFields),
        parse_header raw = .ok h → h.magic = magicBytes →
        256 + h.comp_size ≤ raw.length →
        (decode_png_to_file reg raw = .error .IntegrityMismatch ↔
          sha256 (decimalBytes h.orig_size ++ 58 ::
            listSlice raw 256 h.comp_size) ≠ h.digest)) := by
  constructor
  · intro orig comp fn m h1 h2 h3 h4 h5 h6
    refine ⟨calc_header_ok orig comp fn m h1 h2 h3 h4 h5 h6, ?_,
      sha256_length _⟩
    exact headerBytes_digest_slice orig comp fn m
  · intro reg raw h hp hmg hsz
    exact decode_integrity_iff reg raw h hp hmg hsz

theorem C6_digest_witness :
    (calc_header 0 [] fnNote 0 = .ok (headerBytes 0 [] fnNote 0) ∧
      listSlice (headerBytes 0 [] fnNote 0)
        (30 + (nameBytesOf fnNote).length + (extBytesOf fnNote).length) 32 =
        sha256 (decimalBytes 0 ++ 58 :: []) ∧
      (sha256 (decimalBytes 0 ++ 58 :: [])).length = 32) ∧
    (decode_png_to_file noneOnlyRegistry rawMagicOnly =
        .error .IntegrityMismatch ↔
      sha256 (decimalBytes hdrMagicOnly.orig_size ++ 58 ::
        listSlice rawMagicOnly 256 hdrMagicOnly.comp_size) ≠
        hdrMagicOnly.digest) :=
  ⟨C6_digest.1 0 [] fnNote 0 (by decide) (by decide) (by decide) (by decide)
      (by decide) (by decide),
    C6_digest.2 noneOnlyRegistry rawMagicOnly hdrMagicOnly (by decide) rfl
      (by decide)⟩

/-- C8: `parse_header` fails `TruncatedImage` if and only if the raw
buffer is shorter than 256 bytes; and truncating any grid whose header
is intact (magic correct, valid in-bound name/ext fields) to a length
`L` with `256 ≤ L` strictly below the claimed compressed-payload end
`256 + comp_size` makes Decode fail `Truncated`. -/
theorem C8_truncation :
    (∀ raw, parse_header raw = .error .TruncatedImage ↔ raw.length < 256)
    ∧ (∀ (reg : Registry) (raw : List Nat) (L : Nat), 256 ≤ L →
        L ≤ raw.length →
        listSlice raw 0 8 = magicBytes →
        utf8Valid (listSlice raw 30 (beToNat (listSlice raw 26 2))) = true →
        utf8Valid (listSlice raw (30 + beToNat (listSlice raw 26 2))
          (beToNat (listSlice raw 28 2))) = true →
        30 + beToNat (listSlice raw 26 2) + beToNat (listSlice raw 28 2) +
          32 ≤ 256 →
        L < 256 + beToNat (listSlice raw 18 8) →
        decode_png_to_file reg (raw.take L) = .error .Truncated) :=
  ⟨parse_header_truncated_iff,
    fun reg raw L h1 h2 h3 h4 h5 h6 h7 =>
      decode_truncated_take reg raw L h1 h2 h3 h4 h5 h6 h7⟩

theorem C8_truncation_witness :
    parse_header (List.replicate 100 0) = .error .TruncatedImage ∧
      decode_png_to_file noneOnlyRegistry (rawShortPayload.take 257) =
        .error .Truncated :=
  ⟨(C8_truncation.1 (List.replicate 100 0)).mpr (by decide),
    C8_truncation.2 noneOnlyRegistry rawShortPayload 257 (by decide)
      (by decide) (by decide) (by decide) (by decide) (by decide) (by decide)⟩

/-- C9: on success the header is exactly 256 bytes, laid out as the
30-byte big-endian prefix `magic(8) | method(1) | reserved(1) |
orig_size(8) | comp_size(8) | name_len(2) | ext_len(2)`, then the name
bytes, extension bytes, the 32-byte digest and zero padding; and
`parse_header` applied to `calc_header`'s output recovers the magic,
method, reserved byte, sizes, name, extension and digest exactly. -/
theorem C9_layout (orig : Nat) (comp fn : List Nat) (m : Nat)
    (hfn : fn.all validCp = true)
    (hname : (nameBytesOf fn).length ≤ 175)
    (hext : (extBytesOf fn).length ≤ 20)
    (hsum : 62 + (nameBytesOf fn).length + (extBytesOf fn).length ≤ 256)
    (horig : orig < 2 ^ 64) (hcomp : comp.length < 2 ^ 64) (hm : m < 256) :
    calc_header orig comp fn m = .ok (headerBytes orig comp fn m) ∧
      (headerBytes orig comp fn m).length = 256 ∧
      headerBytes orig comp fn m =
        magicBytes ++ m :: HEADER_RESERVED_BYTE ::
          (natToBE 8 orig ++ natToBE 8 comp.length ++
           natToBE 2 (nameBytesOf fn).length ++
           natToBE 2 (extBytesOf fn).length) ++
          nameBytesOf fn ++ extBytesOf fn ++ digestOf orig comp ++
          List.replicate
            (256 - (62 + (nameBytesOf fn).length + (extBytesOf fn).length)) 0 ∧
      parse_header (headerBytes orig comp fn m) =
        .ok { magic := magicBytes
              comp_method := m
              reserved := HEADER_RESERVED_BYTE
              orig_size := orig
              comp_size := comp.length
              name := nameBytesOf fn
              ext := extBytesOf fn
              digest := digestOf orig comp } := by
  refine ⟨calc_header_ok orig comp fn m hname hext hsum horig hcomp hm,
    headerBytes_length orig comp fn m hsum, ?_, ?_⟩
  · rw [headerBytes, headerUnpadded_length]
    simp [headerUnpadded, packedHeaderPre, HEADER_PAD_TO, List.append_assoc]
  · have h := parse_headerBytes_append orig comp fn m [] hfn hname hext hsum
      horig hcomp hm
    rwa [List.append_nil] at h

theorem C9_layout_witness :
    calc_header 5 [1, 2, 3] fnNote 2 = .ok (headerBytes 5 [1, 2, 3] fnNote 2) ∧
      (headerBytes 5 [1, 2, 3] fnNote 2).length = 256 ∧
      headerBytes 5 [1, 2, 3] fnNote 2 =
        magicBytes ++ 2 :: HEADER_RESERVED_BYTE ::
          (natToBE 8 5 ++ natToBE 8 [1, 2, 3].length ++
           natToBE 2 (nameBytesOf fnNote).length ++
           natToBE 2 (extBytesOf fnNote).length) ++
          nameBytesOf fnNote ++ extBytesOf fnNote ++ digestOf 5 [1, 2, 3] ++
          List.replicate
            (256 - (62 + (nameBytesOf fnNote).length +
              (extBytesOf fnNote).length)) 0 ∧
      parse_header (headerBytes 5 [1, 2, 3] fnNote 2) =
        .ok { magic := magicBytes
              comp_method := 2
              reserved := HEADER_RESERVED_BYTE
              orig_size := 5
              comp_size := [1, 2, 3].length
              name := nameBytesOf fnNote
              ext := extBytesOf fnNote
              digest := digestOf 5 [1, 2, 3] } :=
  C9_layout 5 [1, 2, 3] fnNote 2 (by decide) (by decide) (by decide)
    (by decide) (by decide) (by decide) (by decide)

/-- C10: `parse_header` never enforces the header-layout invariant
`30 + name_len + ext_len + 32 ≤ 256`: on any buffer of at least 256
bytes whose declared `name_len`/`ext_len` push the fields past the
256-byte header region, it slices name, extension and digest from
positions extending into the payload region (clipping at the end of the
buffer like Python slicing), possibly returning a digest shorter than
32 bytes, and raises no error as long as the sliced name and extension
bytes are valid UTF-8. -/
theorem C10_no_bound_check (raw : List Nat)
    (hlen : 256 ≤ raw.length)
    (hover : 256 < 30 + beToNat (listSlice raw 26 2) +
      beToNat (listSlice raw 28 2) + 32)
    (hnv : utf8Valid (listSlice raw 30 (beToNat (listSlice raw 26 2))) = true)
    (hev : utf8Valid (listSlice raw (30 + beToNat (listSlice raw 26 2))
      (beToNat (listSlice raw 28 2))) = true) :
    parse_header raw = .ok
      { magic := listSlice raw 0 8
        comp_method := raw.getD 8 0
        reserved := raw.getD 9 0
        orig_size := beToNat (listSlice raw 10 8)
        comp_size := beToNat (listSlice raw 18 8)
        name := listSlice raw 30 (beToNat (listSlice raw 26 2))
        ext := listSlice raw (30 + beToNat (listSlice raw 26 2))
          (beToNat (listSlice raw 28 2))
        digest := listSlice raw
          (30 + beToNat (listSlice raw 26 2) + beToNat (listSlice raw 28 2))
          32 } ∧
    (listSlice raw
      (30 + beToNat (listSlice raw 26 2) + beToNat (listSlice raw 28 2))
      32).length =
      min 32 (raw.length -
        (30 + beToNat (listSlice raw 26 2) + beToNat (listSlice raw 28 2))) :=
  ⟨parse_header_ok_general raw hlen hnv hev, listSlice_length raw _ 32⟩

theorem C10_no_bound_check_witness :
    parse_header rawBigNameLen = .ok
      { magic := listSlice rawBigNameLen 0 8
        comp_method := rawBigNameLen.getD 8 0
        reserved := rawBigNameLen.getD 9 0
        orig_size := beToNat (listSlice rawBigNameLen 10 8)
        comp_size := beToNat (listSlice rawBigNameLen 18 8)
        name := listSlice rawBigNameLen 30
          (beToNat (listSlice rawBigNameLen 26 2))
        ext := listSlice rawBigNameLen
          (30 + beToNat (listSlice rawBigNameLen 26 2))
          (beToNat (listSlice rawBigNameLen 28 2))
        digest := listSlice rawBigNameLen
          (30 + beToNat (listSlice rawBigNameLen 26 2) +
            beToNat (listSlice rawBigNameLen 28 2)) 32 } ∧
    (listSlice rawBigNameLen
      (30 + beToNat (listSlice rawBigNameLen 26 2) +
        beToNat (listSlice rawBigNameLen 28 2)) 32).length =
      min 32 (rawBigNameLen.length -
        (30 + beToNat (listSlice rawBigNameLen 26 2) +
          beToNat (listSlice rawBigNameLen 28 2))) :=
  C10_no_bound_check rawBigNameLen (by decide) (by decide) (by decide)
    (by decide)

end Emberon
